import Mathlib

/-!
Shallow embedding of the SimpleWebRTC signaling server (`server/main.py`):
the registry data model (rooms, peer sessions, lobby subscriptions), the
message handlers (`handle_join`, `handle_signal`, `handle_peer_connected`,
`handle_disconnect`), the lobby directory helpers, `maybe_emit_match_ready`
and the stale-room reaper body (`prune_stale_rooms`).

Python dictionaries are modelled as association lists, Python sets as
`Finset`, and `time.time()` as an explicit `now : Nat` parameter to each
handler.  Network sends and lock acquire/release are recorded as an explicit
event trace so that ordering (in particular which sends happen while the
registry lock is held) is preserved from the source.
-/

namespace SimpleWebRTC

/-- Association-list lookup, modelling Python `dict.get`. -/
def lookupA {α β : Type} [DecidableEq α] (k : α) : List (α × β) → Option β
  | [] => none
  | (k', v) :: rest => if k = k' then some v else lookupA k rest

/-- Association-list insert/replace, modelling Python `dict[k] = v`. -/
def insertA {α β : Type} [DecidableEq α] (k : α) (v : β) : List (α × β) → List (α × β)
  | [] => [(k, v)]
  | (k', v') :: rest => if k = k' then (k, v) :: rest else (k', v') :: insertA k v rest

/-- Association-list delete, modelling Python `dict.pop(k, None)`. -/
def eraseA {α β : Type} [DecidableEq α] (k : α) : List (α × β) → List (α × β)
  | [] => []
  | (k', v') :: rest => if k = k' then rest else (k', v') :: eraseA k rest

/-- Model of `Topology = Literal["mesh", "server_authoritative"]`. -/
inductive Topology : Type
  | mesh
  | server_authoritative
deriving DecidableEq

/-- Model of the `PeerSession` dataclass (the websocket handle is identified by the
session's key in `registry.peers`, so it is not stored separately). -/
structure PeerSession : Type where
  peer_id : Nat
  room_id : String
  joined_at : Nat
deriving DecidableEq

/-- Model of the `LobbySubscription` dataclass. -/
structure LobbySubscription : Type where
  connection_id : Nat
  filter_tags : Finset String
deriving DecidableEq

/-- Model of the `Room` dataclass. -/
structure Room : Type where
  room_id : String
  host_id : Nat
  topology : Topology
  capacity : Nat
  is_sealed : Bool
  peer_ids : Finset Nat
  connected_ack : Finset Nat
  tags : List String
  last_activity : Nat
deriving DecidableEq

/-- Model of `Room.is_full`: `self.capacity > 0 and len(self.peer_ids) >= self.capacity`. -/
def Room.is_full (r : Room) : Bool :=
  decide (0 < r.capacity) && decide (r.capacity ≤ r.peer_ids.card)

/-- The mutable fields of `Registry` that the handlers touch
(`rooms`, `peers`, `lobby_subscriptions`, `_next_peer_id`). -/
structure RegistryState : Type where
  rooms : List (String × Room)
  peers : List (Nat × PeerSession)
  lobby_subscriptions : List (Nat × LobbySubscription)
  next_peer_id : Nat
deriving DecidableEq

/-- Destination of a network send: the websocket of the request being
processed, the websocket of a registered peer, or the websocket of a lobby
subscriber connection. -/
inductive Dest : Type
  | requester
  | peer (id : Nat)
  | conn (id : Nat)
deriving DecidableEq

/-- Lobby delta op. -/
inductive DeltaOp : Type
  | upsert
  | remove
deriving DecidableEq

/-- Shape of the `room_to_lobby` output. -/
structure LobbySummary : Type where
  room_id : String
  topology : Topology
  players : Nat
  capacity : Nat
  tags : List String
deriving DecidableEq

/-- Server→client payloads produced by the embedded handlers. -/
inductive Payload : Type
  | error (msg : String)
  | id_assigned (peer_id host_id : Nat) (topology : Topology) (capacity : Nat)
  | peer_joined (peer_id : Nat)
  | peer_left (peer_id : Nat)
  | room_closed
  | match_ready
  | signal (from_id : Nat) (sdp ice : Option String)
  | lobby_delta (op : DeltaOp) (room_id : String) (lobby : Option LobbySummary)
deriving DecidableEq

/-- Observable events of a handler invocation: registry-lock acquire/release
and network sends, in program order. -/
inductive Event : Type
  | acquire
  | release
  | send (dst : Dest) (payload : Payload)
deriving DecidableEq

/-- Model of `room_to_lobby(room)`. -/
def room_to_lobby (room : Room) : LobbySummary :=
  { room_id := room.room_id
    topology := room.topology
    players := room.peer_ids.card
    capacity := room.capacity
    tags := room.tags }

/-- Model of `_is_room_visible_to_filter(room, filter_tags)`. -/
def is_room_visible_to_filter (room : Room) (filter_tags : Finset String) : Bool :=
  if room.is_sealed || room.is_full then false
  else if filter_tags.Nonempty ∧ ¬ filter_tags ⊆ room.tags.toFinset then false
  else true

/-- Model of `_build_lobby_snapshot(rooms, filter_tags)`. -/
def build_lobby_snapshot (rooms : List Room) (filter_tags : Finset String) :
    List LobbySummary :=
  (rooms.filter (fun room => is_room_visible_to_filter room filter_tags)).map room_to_lobby

/-- The payload `notify_lobby_room_changed` sends to one subscriber:
`upsert` with the room summary when the room exists and is visible under the
subscriber's filter, otherwise `remove`. -/
def lobby_delta_payload (room : Option Room) (room_id : String)
    (filter_tags : Finset String) : Payload :=
  match room with
  | some r =>
      if is_room_visible_to_filter r filter_tags then
        Payload.lobby_delta DeltaOp.upsert r.room_id (some (room_to_lobby r))
      else
        Payload.lobby_delta DeltaOp.remove room_id none
  | none => Payload.lobby_delta DeltaOp.remove room_id none

/-- Model of `notify_lobby_room_changed(room_id)`: snapshot the room and subscriber
list under the lock, then fan out one delta per subscriber outside the lock. -/
def notify_lobby_room_changed (st : RegistryState) (room_id : String) : List Event :=
  let room : Option Room := lookupA room_id st.rooms
  [Event.acquire, Event.release] ++
    st.lobby_subscriptions.map (fun sub =>
      Event.send (Dest.conn sub.2.connection_id)
        (lobby_delta_payload room room_id sub.2.filter_tags))

/-- The elements of a `Finset Nat` in ascending order, used to linearize
Python's unordered set iteration into a list. -/
def sorted_members (s : Finset Nat) : List Nat :=
  Quotient.liftOn s.val (fun l => l.insertionSort (· ≤ ·)) (fun a b h =>
    List.eq_of_perm_of_sorted
      ((List.perm_insertionSort _ a).trans (h.trans (List.perm_insertionSort _ b).symm))
      (List.sorted_insertionSort _ a) (List.sorted_insertionSort _ b))

/-- Model of `broadcast_room(room, payload, exclude_peer_id)`: send to every member of
`room.peer_ids` that has a live session, skipping `exclude_peer_id`.
(The Python set iteration order is linearized by sorting the ids.) -/
def broadcast_room (st : RegistryState) (room : Room) (payload : Payload)
    (exclude_peer_id : Option Nat) : List Event :=
  (sorted_members room.peer_ids).filterMap (fun pid =>
    if exclude_peer_id = some pid then none
    else
      match lookupA pid st.peers with
      | none => none
      | some _ => some (Event.send (Dest.peer pid) payload))

/-- Model of `maybe_emit_match_ready(room_id)`: under the lock, look up the room; if it
is full and the acknowledgment count has reached the member count, refresh
activity and (outside the lock) broadcast `match_ready` to the room. -/
def maybe_emit_match_ready (st : RegistryState) (now : Nat) (room_id : String) :
    RegistryState × List Event :=
  match lookupA room_id st.rooms with
  | none => (st, [Event.acquire, Event.release])
  | some room =>
      if room.is_full ∧ room.peer_ids.card ≤ room.connected_ack.card then
        let room' : Room := { room with last_activity := now }
        let st' : RegistryState := { st with rooms := insertA room_id room' st.rooms }
        (st', [Event.acquire, Event.release] ++
          broadcast_room st' room' Payload.match_ready none)
      else (st, [Event.acquire, Event.release])

/-- Model of `handle_peer_connected(peer_id)`: record the acknowledgment into the
room's `connected_ack`, refresh activity, then run the match-ready check. -/
def handle_peer_connected (st : RegistryState) (now : Nat) (peer_id : Nat) :
    RegistryState × List Event :=
  match lookupA peer_id st.peers with
  | none => (st, [Event.acquire, Event.release])
  | some session =>
      match lookupA session.room_id st.rooms with
      | none => (st, [Event.acquire, Event.release])
      | some room =>
          let room' : Room :=
            { room with connected_ack := insert peer_id room.connected_ack
                        last_activity := now }
          let st' : RegistryState :=
            { st with rooms := insertA session.room_id room' st.rooms }
          let res := maybe_emit_match_ready st' now session.room_id
          (res.1, [Event.acquire, Event.release] ++ res.2)

/-- The fields of a decoded `signal` message the handler reads: `target_id`
(defaulting to 0) and the optional opaque `sdp` / `ice` payloads. -/
structure SignalMsg : Type where
  target_id : Nat
  sdp : Option String
  ice : Option String
deriving DecidableEq

/-- Model of `handle_signal(from_peer_id, message)`. -/
def handle_signal (st : RegistryState) (now : Nat) (from_peer_id : Nat)
    (msg : SignalMsg) : RegistryState × List Event :=
  if msg.target_id = 0 then
    match lookupA from_peer_id st.peers with
    | some _ =>
        (st, [Event.send (Dest.peer from_peer_id) (Payload.error "target_id_required")])
    | none => (st, [])
  else
    match lookupA from_peer_id st.peers, lookupA msg.target_id st.peers with
    | some source_session, some target_session =>
        if source_session.room_id ≠ target_session.room_id then
          (st, [Event.acquire,
                Event.send (Dest.peer from_peer_id)
                  (Payload.error "cross_room_signal_blocked"),
                Event.release])
        else
          match lookupA source_session.room_id st.rooms with
          | none => (st, [Event.acquire, Event.release])
          | some room =>
              let room' : Room := { room with last_activity := now }
              let st' : RegistryState :=
                { st with rooms := insertA source_session.room_id room' st.rooms }
              (st', [Event.acquire, Event.release,
                     Event.send (Dest.peer msg.target_id)
                       (Payload.signal from_peer_id msg.sdp msg.ice)])
    | _, _ => (st, [Event.acquire, Event.release])

/-- Model of `handle_disconnect(peer_id)`: pop the session, update or remove the room,
then broadcast `room_closed` / `peer_left` and the lobby delta outside the
lock. -/
def handle_disconnect (st : RegistryState) (now : Nat) (peer_id : Nat) :
    RegistryState × List Event :=
  match lookupA peer_id st.peers with
  | none => (st, [Event.acquire, Event.release])
  | some session =>
      let st1 : RegistryState := { st with peers := eraseA peer_id st.peers }
      match lookupA session.room_id st1.rooms with
      | none => (st1, [Event.acquire, Event.release])
      | some room =>
          let room1 : Room :=
            { room with peer_ids := room.peer_ids.erase peer_id
                        connected_ack := room.connected_ack.erase peer_id
                        last_activity := now }
          let host_disconnected : Bool := decide (peer_id = room1.host_id)
          let is_empty : Bool := decide (room1.peer_ids.card = 0)
          if host_disconnected || is_empty then
            let st2 : RegistryState :=
              { st1 with rooms := eraseA room1.room_id st1.rooms }
            let closeEv : List Event :=
              if host_disconnected then
                broadcast_room st2 room1 Payload.room_closed none
              else []
            (st2, [Event.acquire, Event.release] ++ closeEv ++
              notify_lobby_room_changed st2 room1.room_id)
          else
            let room2 : Room := { room1 with is_sealed := false }
            let st2 : RegistryState :=
              { st1 with rooms := insertA session.room_id room2 st1.rooms }
            (st2, [Event.acquire, Event.release] ++
              broadcast_room st2 room2 (Payload.peer_left peer_id) none ++
              notify_lobby_room_changed st2 room1.room_id)

/-- The fields of a decoded `join` message after the initial coercions at the
top of `handle_join`: `room_id` (stripped), `is_host_intent`, the normalized
topology, the raw requested capacity (before the floor-2 clamp) and the tag
list. -/
structure JoinMsg : Type where
  room_id : String
  is_host_intent : Bool
  topology : Topology
  capacity : Int
  tags : List String
deriving DecidableEq

/-- Model of `capacity = max(2, capacity)`. -/
def clamp_capacity (c : Int) : Nat := (max 2 c).toNat

/-- The `peer_joined` notifications `handle_join` sends to the selected
existing members that still have sessions. -/
def peer_joined_events (peers : List (Nat × PeerSession)) (ids : List Nat)
    (p : Nat) : List Event :=
  ids.filterMap (fun pid =>
    match lookupA pid peers with
    | none => none
    | some _ => some (Event.send (Dest.peer pid) (Payload.peer_joined p)))

/-- The part of `handle_join` from the sealed/full check onward, entered with
the room already resolved (and, for a fresh room, already stored in the
registry, exactly as the Python code stores it before the checks). -/
def join_accept (st1 : RegistryState) (now : Nat) (msg : JoinMsg) (peer_id : Nat)
    (room : Room) : RegistryState × List Event × Option Nat :=
  if room.is_sealed || room.is_full then
    (st1, [Event.acquire,
           Event.send Dest.requester (Payload.error "room_unavailable"),
           Event.release], none)
  else if msg.is_host_intent ∧ room.host_id ≠ peer_id then
    (st1, [Event.acquire,
           Event.send Dest.requester (Payload.error "host_already_exists"),
           Event.release], none)
  else
    let roomA : Room := { room with peer_ids := insert peer_id room.peer_ids
                                    last_activity := now }
    let roomB : Room := if roomA.is_full then { roomA with is_sealed := true } else roomA
    let st2 : RegistryState :=
      { st1 with rooms := insertA msg.room_id roomB st1.rooms
                 peers := insertA peer_id ⟨peer_id, msg.room_id, now⟩ st1.peers }
    let existing_peers : List Nat := sorted_members (roomB.peer_ids.erase peer_id)
    let notify_ids : List Nat :=
      match roomB.topology with
      | Topology.mesh => existing_peers
      | Topology.server_authoritative =>
          if roomB.host_id ∈ existing_peers then [roomB.host_id] else []
    let joinedEv : List Event := peer_joined_events st2.peers notify_ids peer_id
    let headEv : List Event :=
      [Event.acquire, Event.release] ++
      notify_lobby_room_changed st2 msg.room_id ++
      [Event.send Dest.requester
        (Payload.id_assigned peer_id roomB.host_id roomB.topology roomB.capacity)] ++
      joinedEv
    if roomB.is_full then
      let res := maybe_emit_match_ready st2 now msg.room_id
      (res.1, headEv ++ res.2, some peer_id)
    else
      (st2, headEv, some peer_id)

/-- Model of `handle_join(websocket, message)`. -/
def handle_join (st : RegistryState) (now : Nat) (msg : JoinMsg) :
    RegistryState × List Event × Option Nat :=
  if msg.room_id = "" then
    (st, [Event.send Dest.requester (Payload.error "room_id_required")], none)
  else
    let peer_id : Nat := st.next_peer_id
    let st0 : RegistryState := { st with next_peer_id := st.next_peer_id + 1 }
    match lookupA msg.room_id st0.rooms with
    | none =>
        if msg.is_host_intent then
          let newRoom : Room :=
            { room_id := msg.room_id
              host_id := peer_id
              topology := msg.topology
              capacity := clamp_capacity msg.capacity
              is_sealed := false
              peer_ids := ∅
              connected_ack := ∅
              tags := msg.tags
              last_activity := now }
          join_accept { st0 with rooms := insertA msg.room_id newRoom st0.rooms }
            now msg peer_id newRoom
        else
          (st0, [Event.acquire,
                 Event.send Dest.requester (Payload.error "room_not_found"),
                 Event.release], none)
    | some room =>
        if msg.topology ≠ room.topology then
          (st0, [Event.acquire,
                 Event.send Dest.requester (Payload.error "topology_mismatch"),
                 Event.release], none)
        else
          join_accept st0 now msg peer_id room

/-- One wake of the `prune_stale_rooms` loop body: under the lock, collect the
rooms whose `last_activity` is more than 60 units old, remove them and their
member sessions, then (outside the lock) run the lobby notification for each
pruned room id. -/
def prune_stale_rooms (st : RegistryState) (now : Nat) : RegistryState × List Event :=
  let stale_rooms : List (String × Room) :=
    st.rooms.filter (fun rr => decide (60 < now - rr.2.last_activity))
  let stale_room_ids : List String := stale_rooms.map Prod.fst
  let st1 : RegistryState :=
    { st with
      rooms := st.rooms.filter (fun rr => ! decide (60 < now - rr.2.last_activity))
      peers := st.peers.filter (fun ps =>
        ! stale_rooms.any (fun rr => decide (ps.1 ∈ rr.2.peer_ids))) }
  (st1, [Event.acquire, Event.release] ++
    (stale_room_ids.map (fun rid => notify_lobby_room_changed st1 rid)).flatten)

/-- Where the `websocket_endpoint` receive loop routes a decoded message,
given its `type` string and whether the connection already has a joined peer
identity (`peer_id is not None`). -/
inductive DispatchResult : Type
  | to_join
  | to_list_lobbies
  | to_subscribe_lobbies
  | to_unsubscribe_lobbies
  | join_required_error
  | to_signal
  | to_peer_connected
  | unknown_type_error (name : String)
deriving DecidableEq

/-- The dispatch chain of the `websocket_endpoint` receive loop. -/
def dispatch_message (message_type : String) (has_peer_id : Bool) : DispatchResult :=
  if message_type = "join" then DispatchResult.to_join
  else if message_type = "list_lobbies" then DispatchResult.to_list_lobbies
  else if message_type = "subscribe_lobbies" then DispatchResult.to_subscribe_lobbies
  else if message_type = "unsubscribe_lobbies" then DispatchResult.to_unsubscribe_lobbies
  else if has_peer_id = false then DispatchResult.join_required_error
  else if message_type = "signal" then DispatchResult.to_signal
  else if message_type = "peer_connected" then DispatchResult.to_peer_connected
  else DispatchResult.unknown_type_error message_type

/-! ### Room invariants (claim C1) -/

/-- The per-room invariants stated by the spec: `connected_ack ⊆ peer_ids`,
`host_id ∈ peer_ids`, `|peer_ids| ≤ capacity`, `is_sealed ⇔ |peer_ids| ==
capacity`. -/
def RoomInv (room : Room) : Prop :=
  room.connected_ack ⊆ room.peer_ids ∧
  room.host_id ∈ room.peer_ids ∧
  room.peer_ids.card ≤ room.capacity ∧
  (room.is_sealed = true ↔ room.peer_ids.card = room.capacity)

instance : DecidablePred RoomInv := fun room => by
  unfold RoomInv; infer_instance

/-- Every room in the registry satisfies `RoomInv`. -/
def RoomsInv (st : RegistryState) : Prop :=
  ∀ e ∈ st.rooms, RoomInv e.2

instance : DecidablePred RoomsInv := fun st => by
  unfold RoomsInv; infer_instance

/-- Every registered peer session whose `room_id` resolves to an existing
room is a member of that room.  This can fail on reachable states: when a
host departs, the members' sessions stay registered while the room is
deleted, and a later room with the same id makes them dangle. -/
def Coherent (st : RegistryState) : Prop :=
  ∀ e ∈ st.peers,
    ∀ room, lookupA e.2.room_id st.rooms = some room → e.1 ∈ room.peer_ids

instance : DecidablePred Coherent := fun st => by
  unfold Coherent
  letI : DecidablePred (fun e : Nat × PeerSession =>
      ∀ room, lookupA e.2.room_id st.rooms = some room → e.1 ∈ room.peer_ids) := by
    intro e
    rcases h : lookupA e.2.room_id st.rooms with _ | room
    · exact Decidable.isTrue (fun room hr => by rw [h] at hr; cases hr)
    · rcases Finset.decidableMem e.1 room.peer_ids with hm | hm
      · exact Decidable.isFalse (fun hall => hm (hall room h))
      · exact Decidable.isTrue (fun room' hr => by
          rw [h] at hr; cases hr; exact hm)
  exact List.decidableBAll _ st.peers

/-! ### Concrete states used by witnesses and counterexamples -/

/-- The registry at process start: no rooms, peers or subscriptions, and the
peer-id allocator at 1. -/
def emptyState : RegistryState :=
  { rooms := [], peers := [], lobby_subscriptions := [], next_peer_id := 1 }

/-- A `join` message for a mesh room with requested capacity 2 and no tags. -/
def joinMesh (rid : String) (intent : Bool) : JoinMsg :=
  { room_id := rid, is_host_intent := intent, topology := Topology.mesh
    capacity := 2, tags := [] }

/-! ### Lock/send trace accounting (claim C8) -/

/-- The sends of an event trace that happen while the lock depth is
positive, starting from depth `d`. -/
def sends_inside_lock : List Event → Nat → List (Dest × Payload)
  | [], _ => []
  | Event.acquire :: rest, d => sends_inside_lock rest (d + 1)
  | Event.release :: rest, d => sends_inside_lock rest (d - 1)
  | Event.send dst p :: rest, d =>
      (if 0 < d then [(dst, p)] else []) ++ sends_inside_lock rest d

/-- Lock depth after processing a trace, starting from depth `d`. -/
def lock_depth_after : List Event → Nat → Nat
  | [], d => d
  | Event.acquire :: rest, d => lock_depth_after rest (d + 1)
  | Event.release :: rest, d => lock_depth_after rest (d - 1)
  | Event.send _ _ :: rest, d => lock_depth_after rest d

/-- Whether an event is a network send (as opposed to a lock event). -/
def is_send_event : Event → Bool
  | Event.send _ _ => true
  | _ => false

/-! ### Join outcome extraction and the spec-side join decision (claim C4) -/

/-- The first `error` payload sent in a trace, if any. -/
def first_error : List Event → Option String
  | [] => none
  | Event.send _ (Payload.error m) :: _ => some m
  | _ :: rest => first_error rest

/-- Observable outcome of a join request: the error code sent back, or the
assigned peer id. -/
inductive JoinOutcome : Type
  | rejected (err : String)
  | accepted (peer_id : Nat)
deriving DecidableEq

/-- Outcome of a `handle_join` invocation: accepted with the returned peer
id, or rejected with the first error sent. -/
def join_outcome (res : RegistryState × List Event × Option Nat) : JoinOutcome :=
  match res.2.2 with
  | some p => JoinOutcome.accepted p
  | none => JoinOutcome.rejected ((first_error res.2.1).getD "")

/-- Modelled from the spec's words (join validation order, §4.2): reject
empty room id; for an existing room, reject a topology mismatch, then a
sealed or full room, then host intent by a requester who is not the existing
host; for a missing room, reject when there is no host intent; otherwise
accept with the next allocated peer id. -/
def join_spec_outcome (st : RegistryState) (msg : JoinMsg) : JoinOutcome :=
  if msg.room_id = "" then JoinOutcome.rejected "room_id_required"
  else
    match lookupA msg.room_id st.rooms with
    | some room =>
        if msg.topology ≠ room.topology then JoinOutcome.rejected "topology_mismatch"
        else if room.is_sealed = true ∨ room.is_full = true then
          JoinOutcome.rejected "room_unavailable"
        else if msg.is_host_intent = true ∧ room.host_id ≠ st.next_peer_id then
          JoinOutcome.rejected "host_already_exists"
        else JoinOutcome.accepted st.next_peer_id
    | none =>
        if msg.is_host_intent = false then JoinOutcome.rejected "room_not_found"
        else JoinOutcome.accepted st.next_peer_id

/-! ### Spec-side lobby visibility (claim C6) -/

/-- Modelled from the spec's words: a room is visible to a filter exactly
when it is neither sealed nor full and the filter's tag set, if non-empty,
is a subset of the room's tags. -/
def visible_spec (room : Room) (filter_tags : Finset String) : Prop :=
  room.is_sealed = false ∧ room.is_full = false ∧
    (filter_tags = ∅ ∨ filter_tags ⊆ room.tags.toFinset)

/-! ### Concrete traces -/

/-- Step 1 of the stale-session trace: peer 1 creates room `"r"`. -/
def ghostStep1 : RegistryState × List Event × Option Nat :=
  handle_join emptyState 10 (joinMesh "r" true)

/-- Step 2: peer 2 joins room `"r"`, which becomes full and sealed. -/
def ghostStep2 : RegistryState × List Event × Option Nat :=
  handle_join ghostStep1.1 11 (joinMesh "r" false)

/-- Step 3: the host (peer 1) disconnects; the room is removed but peer 2's
session stays registered. -/
def ghostStep3 : RegistryState × List Event :=
  handle_disconnect ghostStep2.1 12 1

/-- Step 4: peer 3 recreates room `"r"`. -/
def ghostStep4 : RegistryState × List Event × Option Nat :=
  handle_join ghostStep3.1 13 (joinMesh "r" true)

/-- Step 5: peer 2's stale session acknowledges `peer_connected`, which is
recorded into the recreated room even though peer 2 is not a member. -/
def ghostStep5 : RegistryState × List Event :=
  handle_peer_connected ghostStep4.1 14 2

/-- Step 1 of the redundant-acknowledgment trace: peer 1 creates room `"m"`. -/
def ackStep1 : RegistryState × List Event × Option Nat :=
  handle_join emptyState 20 (joinMesh "m" true)

/-- Step 2: peer 2 joins; room `"m"` is now full. -/
def ackStep2 : RegistryState × List Event × Option Nat :=
  handle_join ackStep1.1 21 (joinMesh "m" false)

/-- Step 3: peer 1 acknowledges. -/
def ackStep3 : RegistryState × List Event :=
  handle_peer_connected ackStep2.1 22 1

/-- Step 4: peer 2 acknowledges; this completes the acknowledgment cycle and
`match_ready` is broadcast. -/
def ackStep4 : RegistryState × List Event :=
  handle_peer_connected ackStep3.1 23 2

/-- Step 5: peer 2 acknowledges again (redundantly). -/
def ackStep5 : RegistryState × List Event :=
  handle_peer_connected ackStep4.1 24 2

/-- Step 1 of the host-departure trace: peer 1 creates room `"h"`. -/
def hostLeaveStep1 : RegistryState × List Event × Option Nat :=
  handle_join emptyState 30 (joinMesh "h" true)

/-- Step 2: peer 2 joins room `"h"`. -/
def hostLeaveStep2 : RegistryState × List Event × Option Nat :=
  handle_join hostLeaveStep1.1 31 (joinMesh "h" false)

/-- Step 3: the host (peer 1) disconnects while peer 2 remains. -/
def hostLeaveStep3 : RegistryState × List Event :=
  handle_disconnect hostLeaveStep2.1 32 1

/-! ### Concrete witness states -/

/-- A full mesh room `"a"` with members 1 and 2. -/
def roomA : Room :=
  { room_id := "a", host_id := 1, topology := Topology.mesh, capacity := 2
    is_sealed := true, peer_ids := insert 1 {2}, connected_ack := ∅
    tags := [], last_activity := 0 }

/-- A registry with room `"a"` and live sessions for peers 1 and 2. -/
def twoPeerState : RegistryState :=
  { rooms := [("a", roomA)]
    peers := [(1, ⟨1, "a", 0⟩), (2, ⟨2, "a", 0⟩)]
    lobby_subscriptions := []
    next_peer_id := 3 }

/-- A full mesh room `"m"` whose two members have both acknowledged. -/
def roomFullAcked : Room :=
  { room_id := "m", host_id := 1, topology := Topology.mesh, capacity := 2
    is_sealed := true, peer_ids := insert 1 {2}, connected_ack := insert 1 {2}
    tags := [], last_activity := 0 }

/-- A registry with room `"m"` full and fully acknowledged. -/
def fullAckedState : RegistryState :=
  { rooms := [("m", roomFullAcked)]
    peers := [(1, ⟨1, "m", 0⟩), (2, ⟨2, "m", 0⟩)]
    lobby_subscriptions := []
    next_peer_id := 3 }

/-- A stale room `"old"`: one member, last activity at time 0. -/
def roomOld : Room :=
  { room_id := "old", host_id := 4, topology := Topology.mesh, capacity := 2
    is_sealed := false, peer_ids := {4}, connected_ack := ∅
    tags := [], last_activity := 0 }

/-- A fresh room `"new"`: one member, last activity at time 100. -/
def roomNew : Room :=
  { room_id := "new", host_id := 5, topology := Topology.mesh, capacity := 2
    is_sealed := false, peer_ids := {5}, connected_ack := ∅
    tags := [], last_activity := 100 }

/-- A registry with one stale room, one fresh room and one lobby
subscriber (connection 7). -/
def pruneState : RegistryState :=
  { rooms := [("old", roomOld), ("new", roomNew)]
    peers := [(4, ⟨4, "old", 0⟩), (5, ⟨5, "new", 100⟩)]
    lobby_subscriptions := [(7, ⟨7, ∅⟩)]
    next_peer_id := 6 }


/-! ### Association-list and helper lemmas -/

theorem lookupA_insertA_self {α β : Type} [DecidableEq α] (k : α) (v : β) :
    ∀ l : List (α × β), lookupA k (insertA k v l) = some v
  | [] => by simp [insertA, lookupA]
  | (a, b) :: rest => by
      by_cases h : k = a
      · simp [insertA, lookupA, h]
      · simp [insertA, lookupA, h, lookupA_insertA_self k v rest]

theorem lookupA_insertA_ne {α β : Type} [DecidableEq α] (k k' : α) (v : β)
    (hne : k' ≠ k) :
    ∀ l : List (α × β), lookupA k' (insertA k v l) = lookupA k' l
  | [] => by simp [insertA, lookupA, hne]
  | (a, b) :: rest => by
      by_cases h : k = a
      · subst h; simp [insertA, lookupA, hne]
      · by_cases h2 : k' = a
        · simp [insertA, lookupA, h, h2]
        · simp [insertA, lookupA, h, h2, lookupA_insertA_ne k k' v hne rest]

theorem lookupA_mem {α β : Type} [DecidableEq α] {k : α} {v : β} :
    ∀ {l : List (α × β)}, lookupA k l = some v → (k, v) ∈ l
  | [], h => by simp [lookupA] at h
  | (a, b) :: rest, h => by
      by_cases he : k = a
      · subst he
        simp [lookupA] at h
        subst h
        exact List.mem_cons_self _ _
      · simp only [lookupA, if_neg he] at h
        exact List.mem_cons_of_mem _ (lookupA_mem h)

theorem mem_insertA {α β : Type} [DecidableEq α] {k : α} {v : β} {x : α × β} :
    ∀ {l : List (α × β)}, x ∈ insertA k v l → x = (k, v) ∨ x ∈ l
  | [], h => by simpa [insertA] using h
  | (a, b) :: rest, h => by
      by_cases he : k = a
      · subst he
        simp only [insertA, if_pos rfl] at h
        rcases List.mem_cons.mp h with h1 | h1
        · exact Or.inl h1
        · exact Or.inr (List.mem_cons_of_mem _ h1)
      · simp only [insertA, if_neg he] at h
        rcases List.mem_cons.mp h with h1 | h1
        · exact Or.inr (h1 ▸ List.mem_cons_self _ _)
        · rcases mem_insertA h1 with h2 | h2
          · exact Or.inl h2
          · exact Or.inr (List.mem_cons_of_mem _ h2)

theorem mem_eraseA {α β : Type} [DecidableEq α] {k : α} {x : α × β} :
    ∀ {l : List (α × β)}, x ∈ eraseA k l → x ∈ l
  | (a, b) :: rest, h => by
      by_cases he : k = a
      · subst he
        simp only [eraseA, if_pos rfl] at h
        exact List.mem_cons_of_mem _ h
      · simp only [eraseA, if_neg he] at h
        rcases List.mem_cons.mp h with h1 | h1
        · exact h1 ▸ List.mem_cons_self _ _
        · exact List.mem_cons_of_mem _ (mem_eraseA h1)

theorem lookupA_eraseA_ne {α β : Type} [DecidableEq α] (k k' : α) (hne : k' ≠ k) :
    ∀ l : List (α × β), lookupA k' (eraseA k l) = lookupA k' l
  | [] => by simp [eraseA, lookupA]
  | (a, b) :: rest => by
      by_cases h : k = a
      · subst h; simp [eraseA, lookupA, hne]
      · by_cases h2 : k' = a
        · simp [eraseA, lookupA, h, h2]
        · simp [eraseA, lookupA, h, h2, lookupA_eraseA_ne k k' hne rest]

theorem lookupA_eq_none {α β : Type} [DecidableEq α] (k : α) :
    ∀ l : List (α × β), k ∉ l.map Prod.fst → lookupA k l = none
  | [], _ => rfl
  | (a, b) :: rest, h => by
      simp only [List.map_cons, List.mem_cons] at h
      push_neg at h
      simp [lookupA, h.1, lookupA_eq_none k rest h.2]

theorem lookupA_eraseA_self {α β : Type} [DecidableEq α] (k : α) :
    ∀ l : List (α × β), (l.map Prod.fst).Nodup → lookupA k (eraseA k l) = none
  | [], _ => rfl
  | (a, b) :: rest, h => by
      simp only [List.map_cons, List.nodup_cons] at h
      by_cases he : k = a
      · subst he
        simp only [eraseA, if_pos rfl]
        exact lookupA_eq_none _ _ h.1
      · simp [eraseA, lookupA, he, lookupA_eraseA_self k rest h.2]

theorem lookupA_filter_none {α β : Type} [DecidableEq α] (k : α) (p : α × β → Bool) :
    ∀ l : List (α × β), lookupA k l = none → lookupA k (l.filter p) = none
  | [], _ => rfl
  | (a, b) :: rest, h => by
      by_cases he : k = a
      · subst he; simp [lookupA] at h
      · simp only [lookupA, if_neg he] at h
        by_cases hp : p (a, b)
        · simp [List.filter, hp, lookupA, he, lookupA_filter_none k p rest h]
        · simp [List.filter, hp, lookupA_filter_none k p rest h]

theorem lookupA_filter_of_nodup {α β : Type} [DecidableEq α] (k : α)
    (p : α × β → Bool) :
    ∀ l : List (α × β), (l.map Prod.fst).Nodup → ∀ v, lookupA k l = some v →
      lookupA k (l.filter p) = if p (k, v) then some v else none
  | [], _, v, h => by simp [lookupA] at h
  | (a, b) :: rest, hnd, v, h => by
      simp only [List.map_cons, List.nodup_cons] at hnd
      by_cases he : k = a
      · subst he
        simp [lookupA] at h
        subst h
        by_cases hp : p (k, b)
        · simp [List.filter, hp, lookupA]
        · have : lookupA k rest = none := lookupA_eq_none _ _ hnd.1
          simp [List.filter, hp, lookupA_filter_none k p rest this]
      · simp only [lookupA, if_neg he] at h
        by_cases hp : p (a, b)
        · simp [List.filter, hp, lookupA, he,
            lookupA_filter_of_nodup k p rest hnd.2 v h]
        · simp [List.filter, hp, lookupA_filter_of_nodup k p rest hnd.2 v h]

theorem lookupA_filter_key_none {α β : Type} [DecidableEq α] (k : α)
    (p : α × β → Bool) :
    ∀ l : List (α × β), (∀ e ∈ l, e.1 = k → p e = false) →
      lookupA k (l.filter p) = none
  | [], _ => rfl
  | (a, b) :: rest, h => by
      have hrest : lookupA k (rest.filter p) = none :=
        lookupA_filter_key_none k p rest (fun e he => h e (List.mem_cons_of_mem _ he))
      by_cases he : k = a
      · subst he
        have : p (k, b) = false := h (k, b) (List.mem_cons_self _ _) rfl
        simp [List.filter, this, hrest]
      · by_cases hp : p (a, b)
        · simp [List.filter, hp, lookupA, he, hrest]
        · simp [List.filter, hp, hrest]

theorem mem_sorted_members (a : Nat) (s : Finset Nat) :
    a ∈ sorted_members s ↔ a ∈ s := by
  rcases s with ⟨val, nd⟩
  induction val using Quotient.inductionOn with
  | h l =>
      simp only [sorted_members, Quotient.liftOn, Finset.mem_mk]
      constructor
      · intro h
        exact Multiset.mem_coe.mpr ((List.perm_insertionSort _ l).mem_iff.mp h)
      · intro h
        exact (List.perm_insertionSort _ l).mem_iff.mpr (Multiset.mem_coe.mp h)

/-! ### Claim C10 -/

/-- C10: for a signal message with a nonzero `target_id`, if either the
sender's or the target's peer session is absent from the registry, the
handler returns with no delivery, no error reply, and the registry state
unchanged. -/
theorem C10_signal_silent_drop (st : RegistryState) (now from_peer_id : Nat)
    (msg : SignalMsg) (h0 : msg.target_id ≠ 0)
    (habsent : lookupA from_peer_id st.peers = none ∨
      lookupA msg.target_id st.peers = none) :
    handle_signal st now from_peer_id msg = (st, [Event.acquire, Event.release]) := by
  unfold handle_signal
  rw [if_neg h0]
  rcases habsent with h | h
  · cases ht : lookupA msg.target_id st.peers <;> simp [h, ht]
  · cases hs : lookupA from_peer_id st.peers <;> simp [hs, h]

/-- Witness for C10 at a concrete input. -/
theorem C10_signal_silent_drop_witness :
    handle_signal emptyState 0 1 ⟨5, none, none⟩ =
      (emptyState, [Event.acquire, Event.release]) :=
  C10_signal_silent_drop emptyState 0 1 ⟨5, none, none⟩ (by decide)
    (Or.inl (by decide))

/-! ### Claim C5 -/

/-- C5: for a signal from a joined sender to a live target: a cross-room
target produces a `cross_room_signal_blocked` error to the sender and no
delivery with the registry unchanged; a same-room target (whose room exists)
receives exactly one message tagged with the sender's id and the verbatim
`sdp`/`ice` fields of the request, sent to the target only, and the room's
`last_activity` is refreshed. -/
theorem C5_signal_relay (st : RegistryState) (now from_peer_id : Nat)
    (msg : SignalMsg) (source_session target_session : PeerSession)
    (h0 : msg.target_id ≠ 0)
    (hs : lookupA from_peer_id st.peers = some source_session)
    (ht : lookupA msg.target_id st.peers = some target_session) :
    (source_session.room_id ≠ target_session.room_id →
      handle_signal st now from_peer_id msg =
        (st, [Event.acquire,
              Event.send (Dest.peer from_peer_id)
                (Payload.error "cross_room_signal_blocked"),
              Event.release])) ∧
    (source_session.room_id = target_session.room_id →
      ∀ room, lookupA source_session.room_id st.rooms = some room →
        handle_signal st now from_peer_id msg =
          ({ st with rooms := (insertA source_session.room_id
                ({ room with last_activity := now }) st.rooms) },
           [Event.acquire, Event.release,
            Event.send (Dest.peer msg.target_id)
              (Payload.signal from_peer_id msg.sdp msg.ice)])) := by
  constructor
  · intro hdiff
    unfold handle_signal
    rw [if_neg h0]
    simp [hs, ht, hdiff]
  · intro heq room hroom
    unfold handle_signal
    rw [if_neg h0]
    rw [heq] at hroom
    simp [hs, ht, heq, hroom]

/-- Witness for C5 at a concrete input: peer 1 signals peer 2 in room `"a"`. -/
theorem C5_signal_relay_witness :
    handle_signal twoPeerState 99 1 ⟨2, some "offer", none⟩ =
      ({ twoPeerState with
          rooms := insertA "a" ({ roomA with last_activity := 99 }) twoPeerState.rooms },
       [Event.acquire, Event.release,
        Event.send (Dest.peer 2) (Payload.signal 1 (some "offer") none)]) :=
  (C5_signal_relay twoPeerState 99 1 ⟨2, some "offer", none⟩ ⟨1, "a", 0⟩ ⟨2, "a", 0⟩
      (by decide) (by decide) (by decide)).2 rfl roomA (by decide)

/-! ### Claim C7 (corrected) -/

/-- C7 as stated is false: an unrecognized message type from a connection
that has not joined is answered with `join_required`, not with
`unknown_message_type:<name>`. -/
theorem C7_unknown_type_counterexample :
    dispatch_message "ping" false = DispatchResult.join_required_error ∧
    dispatch_message "ping" false ≠ DispatchResult.unknown_type_error "ping" := by
  decide

/-- C7 amended: `signal` and `peer_connected` from an unjoined connection
receive `join_required` and are dropped; an unrecognized type receives
`unknown_message_type:<name>` only when the connection has joined, while an
unrecognized type from an unjoined connection receives `join_required`. -/
theorem C7_dispatch_rules (message_type : String) :
    dispatch_message "signal" false = DispatchResult.join_required_error ∧
    dispatch_message "peer_connected" false = DispatchResult.join_required_error ∧
    (message_type ∉ (["join", "list_lobbies", "subscribe_lobbies",
        "unsubscribe_lobbies", "signal", "peer_connected"] : List String) →
      dispatch_message message_type true =
        DispatchResult.unknown_type_error message_type) ∧
    (message_type ∉ (["join", "list_lobbies", "subscribe_lobbies",
        "unsubscribe_lobbies"] : List String) →
      dispatch_message message_type false = DispatchResult.join_required_error) := by
  refine ⟨by decide, by decide, ?_, ?_⟩ <;>
    · intro h
      simp only [List.mem_cons, List.mem_singleton, not_or] at h
      unfold dispatch_message
      simp [h.1, h.2.1, h.2.2.1, h.2.2.2]

/-- Witness for C7 at a concrete input. -/
theorem C7_dispatch_rules_witness :
    dispatch_message "pong" true = DispatchResult.unknown_type_error "pong" :=
  (C7_dispatch_rules "pong").2.2.1 (by decide)

/-! ### Claim C6 -/

theorem visible_iff (room : Room) (ft : Finset String) :
    is_room_visible_to_filter room ft = true ↔ visible_spec room ft := by
  unfold is_room_visible_to_filter visible_spec
  by_cases h1 : (room.is_sealed || room.is_full) = true
  · rw [if_pos h1]
    constructor
    · intro h; cases h
    · rintro ⟨hse, hfu, _⟩
      rw [hse, hfu] at h1
      cases h1
  · rw [if_neg h1]
    have h2 : room.is_sealed = false ∧ room.is_full = false := by simpa using h1
    obtain ⟨hse, hfu⟩ := h2
    split_ifs with h
    · constructor
      · intro hx; cases hx
      · rintro ⟨_, _, hemp | hsub⟩
        · exact absurd hemp (Finset.nonempty_iff_ne_empty.mp h.1)
        · exact absurd hsub h.2
    · constructor
      · intro _
        refine ⟨hse, hfu, ?_⟩
        by_cases hemp : ft = ∅
        · exact Or.inl hemp
        · exact Or.inr (not_not.mp (fun hns =>
            h ⟨Finset.nonempty_iff_ne_empty.mpr hemp, hns⟩))
      · intro _; rfl

/-- C6: a room is visible to a filter exactly when it is neither sealed nor
full and a non-empty filter's tags are a subset of the room's tags (an empty
filter matches every unsealed, non-full room); a lobby snapshot contains
exactly the summaries of visible rooms; and the per-subscriber lobby delta
is an `upsert` exactly when the room exists and is visible under that
subscriber's filter. -/
theorem C6_lobby_visibility (room : Room) (ft : Finset String)
    (rooms : List Room) (room_opt : Option Room) (room_id : String)
    (lob : LobbySummary) :
    (is_room_visible_to_filter room ft = true ↔ visible_spec room ft) ∧
    (room.is_sealed = false → room.is_full = false → ft = ∅ →
      is_room_visible_to_filter room ft = true) ∧
    (lob ∈ build_lobby_snapshot rooms ft ↔
      ∃ r ∈ rooms, visible_spec r ft ∧ room_to_lobby r = lob) ∧
    ((∃ rid summary, lobby_delta_payload room_opt room_id ft =
        Payload.lobby_delta DeltaOp.upsert rid summary) ↔
      ∃ r, room_opt = some r ∧ visible_spec r ft) := by
  refine ⟨visible_iff room ft, ?_, ?_, ?_⟩
  · intro hse hfu hemp
    exact (visible_iff room ft).mpr ⟨hse, hfu, Or.inl hemp⟩
  · simp only [build_lobby_snapshot, List.mem_map, List.mem_filter]
    constructor
    · rintro ⟨r, ⟨hmem, hvis⟩, heq⟩
      exact ⟨r, hmem, (visible_iff r ft).mp hvis, heq⟩
    · rintro ⟨r, hmem, hvis, heq⟩
      exact ⟨r, ⟨hmem, (visible_iff r ft).mpr hvis⟩, heq⟩
  · cases room_opt with
    | none =>
        simp [lobby_delta_payload]
    | some r =>
        by_cases hv : is_room_visible_to_filter r ft = true
        · simp only [lobby_delta_payload, if_pos hv]
          constructor
          · intro _
            exact ⟨r, rfl, (visible_iff r ft).mp hv⟩
          · intro _
            exact ⟨r.room_id, some (room_to_lobby r), rfl⟩
        · simp only [lobby_delta_payload, if_neg hv]
          constructor
          · rintro ⟨rid, summary, hcontra⟩
            cases hcontra
          · rintro ⟨r', hr', hvis⟩
            cases hr'
            exact absurd ((visible_iff r ft).mpr hvis) hv

/-- Witness for C6 at a concrete input: the empty filter sees the fresh,
non-full room. -/
theorem C6_lobby_visibility_witness :
    is_room_visible_to_filter roomNew ∅ = true :=
  (C6_lobby_visibility roomNew ∅ [] none "" (room_to_lobby roomNew)).2.1
    (by decide) (by decide) rfl

/-! ### Claim C2 (corrected) -/

/-- C2 as stated is false: after the acknowledgment cycle of room `"m"`
completes (both members acked and `match_ready` was broadcast at step 4), a
redundant `peer_connected` from peer 2 — who is already in `connected_ack` —
broadcasts `match_ready` to the room again at step 5. -/
theorem C2_redundant_ack_counterexample :
    Event.send (Dest.peer 1) Payload.match_ready ∈ ackStep4.2 ∧
    2 ∈ ((lookupA "m" ackStep4.1.rooms).map Room.connected_ack).getD ∅ ∧
    Event.send (Dest.peer 1) Payload.match_ready ∈ ackStep5.2 ∧
    Event.send (Dest.peer 2) Payload.match_ready ∈ ackStep5.2 := by decide

/-- C2 amended: after a `peer_connected` from a peer whose session resolves
to an existing room, `match_ready` is broadcast to every member with a live
session exactly when the room is full and, once the acknowledgment is
recorded, the acknowledgment count reaches the member count — including the
case of a redundant acknowledgment from a member who already acknowledged,
which re-broadcasts `match_ready`; and nothing is broadcast when the room is
not full or acknowledgments are still missing. -/
theorem C2_match_ready_on_ack (st : RegistryState) (now peer_id : Nat)
    (session : PeerSession) (room : Room)
    (hs : lookupA peer_id st.peers = some session)
    (hr : lookupA session.room_id st.rooms = some room) :
    (room.is_full = true →
      room.peer_ids.card ≤ (insert peer_id room.connected_ack).card →
      ∀ q ∈ room.peer_ids, lookupA q st.peers ≠ none →
        Event.send (Dest.peer q) Payload.match_ready ∈
          (handle_peer_connected st now peer_id).2) ∧
    ((room.is_full = false ∨
        (insert peer_id room.connected_ack).card < room.peer_ids.card) →
      ∀ dst, Event.send dst Payload.match_ready ∉
        (handle_peer_connected st now peer_id).2) := by
  have hlook :
      lookupA session.room_id
        (insertA session.room_id
          ({ room with connected_ack := insert peer_id room.connected_ack
                       last_activity := now }) st.rooms) =
      some { room with connected_ack := insert peer_id room.connected_ack
                       last_activity := now } :=
    lookupA_insertA_self _ _ _
  constructor
  · intro hfull hack q hq hqs
    unfold handle_peer_connected
    rw [hs]
    dsimp only
    rw [hr]
    dsimp only
    unfold maybe_emit_match_ready
    rw [hlook]
    dsimp only
    rw [if_pos ?side]
    case side =>
      refine ⟨?_, ?_⟩
      · simpa [Room.is_full] using hfull
      · simpa using hack
    dsimp only
    apply List.mem_append_right
    apply List.mem_append_right
    unfold broadcast_room
    apply List.mem_filterMap.mpr
    refine ⟨q, ?_, ?_⟩
    · exact (mem_sorted_members q _).mpr (by simpa using hq)
    · cases hqlook : lookupA q st.peers with
      | none => exact absurd hqlook hqs
      | some w => simp [hqlook]
  · intro hnot dst
    unfold handle_peer_connected
    rw [hs]
    dsimp only
    rw [hr]
    dsimp only
    unfold maybe_emit_match_ready
    rw [hlook]
    dsimp only
    rw [if_neg ?nside]
    case nside =>
      rintro ⟨hfull, hack⟩
      rcases hnot with hnf | hlt
      · have : room.is_full = true := by simpa [Room.is_full] using hfull
        rw [hnf] at this; cases this
      · have : room.peer_ids.card ≤ (insert peer_id room.connected_ack).card := by
          simpa using hack
        omega
    simp

/-- Witness for C2 at a concrete input: a redundant acknowledgment from peer
2 in the full, fully-acknowledged room re-broadcasts `match_ready`. -/
theorem C2_match_ready_on_ack_witness :
    Event.send (Dest.peer 1) Payload.match_ready ∈
      (handle_peer_connected fullAckedState 50 2).2 :=
  (C2_match_ready_on_ack fullAckedState 50 2 ⟨2, "m", 0⟩ roomFullAcked
      (by decide) (by decide)).1 (by decide) (by decide) 1 (by decide) (by decide)

/-! ### Claim C3 (corrected) -/

/-- C3 as stated is false in one respect: after the host (peer 1) of room
`"h"` disconnects, the room is removed and the remaining member (peer 2)
receives `room_closed`, but peer 2's Peer Session is still registered —
the disconnect handling does not remove the other members' sessions. -/
theorem C3_member_sessions_counterexample :
    lookupA "h" hostLeaveStep3.1.rooms = none ∧
    Event.send (Dest.peer 2) Payload.room_closed ∈ hostLeaveStep3.2 ∧
    lookupA 2 hostLeaveStep3.1.peers ≠ none := by decide

/-- C3 amended: when the disconnecting peer is the room's host, the room is
removed from the registry even if other members remain, `room_closed` is
broadcast to every remaining member with a live session, and the host's own
Peer Session is removed — but the remaining members' Peer Sessions stay in
the registry (they are only removed by their own disconnects or by the
reaper). -/
theorem C3_host_disconnect (st : RegistryState) (now peer_id : Nat)
    (session : PeerSession) (room : Room)
    (hs : lookupA peer_id st.peers = some session)
    (hr : lookupA session.room_id st.rooms = some room)
    (hhost : room.host_id = peer_id)
    (hkey : room.room_id = session.room_id)
    (hnd : (st.rooms.map Prod.fst).Nodup)
    (hndp : (st.peers.map Prod.fst).Nodup) :
    lookupA session.room_id (handle_disconnect st now peer_id).1.rooms = none ∧
    lookupA peer_id (handle_disconnect st now peer_id).1.peers = none ∧
    (∀ q, q ≠ peer_id →
      lookupA q (handle_disconnect st now peer_id).1.peers = lookupA q st.peers) ∧
    (∀ q ∈ room.peer_ids, q ≠ peer_id → lookupA q st.peers ≠ none →
      Event.send (Dest.peer q) Payload.room_closed ∈
        (handle_disconnect st now peer_id).2) := by
  unfold handle_disconnect
  rw [hs]
  dsimp only
  rw [hr]
  dsimp only
  have hc : (decide (peer_id = room.host_id) ||
      decide ((room.peer_ids.erase peer_id).card = 0)) = true := by
    simp [hhost]
  have hc2 : decide (peer_id = room.host_id) = true := by simp [hhost]
  simp only [if_pos hc, if_pos hc2]
  refine ⟨?_, ?_, ?_, ?_⟩
  · rw [← hkey]
    exact lookupA_eraseA_self _ _ hnd
  · exact lookupA_eraseA_self _ _ hndp
  · intro q hq
    exact lookupA_eraseA_ne _ _ hq _
  · intro q hq hqp hqs
    apply List.mem_append_left
    apply List.mem_append_right
    unfold broadcast_room
    apply List.mem_filterMap.mpr
    refine ⟨q, ?_, ?_⟩
    · apply (mem_sorted_members q _).mpr
      simp only [Finset.mem_erase]
      exact ⟨hqp, hq⟩
    · have heq : lookupA q (eraseA peer_id st.peers) = lookupA q st.peers :=
        lookupA_eraseA_ne _ _ hqp _
      cases hqlook : lookupA q st.peers with
      | none => exact absurd hqlook hqs
      | some w => simp [heq, hqlook]

/-- Witness for C3 at a concrete input: the host of room `"a"` disconnects
while peer 2 remains. -/
theorem C3_host_disconnect_witness :
    lookupA "a" (handle_disconnect twoPeerState 77 1).1.rooms = none ∧
    Event.send (Dest.peer 2) Payload.room_closed ∈
      (handle_disconnect twoPeerState 77 1).2 := by
  have h := C3_host_disconnect twoPeerState 77 1 ⟨1, "a", 0⟩ roomA
    (by decide) (by decide) (by decide) (by decide) (by decide) (by decide)
  exact ⟨h.1, h.2.2.2 2 (by decide) (by decide) (by decide)⟩

/-! ### Claim C9 -/

/-- C9: one wake of the reaper removes exactly the rooms whose
`last_activity` is more than 60 units old (leaving recently active rooms
unchanged), removes the member Peer Sessions of every pruned room, leaves
the subscriber registry unchanged, and the emitted trace carries a `remove`
lobby delta for each pruned room to every current subscriber. -/
theorem C9_prune_stale (st : RegistryState) (now : Nat)
    (hnd : (st.rooms.map Prod.fst).Nodup) :
    (∀ rid room, lookupA rid st.rooms = some room →
      lookupA rid (prune_stale_rooms st now).1.rooms =
        (if 60 < now - room.last_activity then none else some room)) ∧
    (∀ rid room, lookupA rid st.rooms = some room →
      60 < now - room.last_activity →
      ∀ q ∈ room.peer_ids, lookupA q (prune_stale_rooms st now).1.peers = none) ∧
    (∀ rid room, lookupA rid st.rooms = some room →
      60 < now - room.last_activity →
      ∀ sub ∈ st.lobby_subscriptions,
        Event.send (Dest.conn sub.2.connection_id)
          (Payload.lobby_delta DeltaOp.remove rid none) ∈
          (prune_stale_rooms st now).2) ∧
    (prune_stale_rooms st now).1.lobby_subscriptions = st.lobby_subscriptions := by
  unfold prune_stale_rooms
  dsimp only
  refine ⟨?_, ?_, ?_, rfl⟩
  · intro rid room hlook
    rw [lookupA_filter_of_nodup rid _ st.rooms hnd room hlook]
    by_cases hstale : 60 < now - room.last_activity
    · simp [hstale]
    · simp [hstale]
  · intro rid room hlook hstale q hq
    apply lookupA_filter_key_none
    intro e he hekey
    have hmemf : (rid, room) ∈ st.rooms.filter
        (fun rr => decide (60 < now - rr.2.last_activity)) :=
      List.mem_filter.mpr ⟨lookupA_mem hlook, by simpa using hstale⟩
    have hany : (st.rooms.filter
        (fun rr => decide (60 < now - rr.2.last_activity))).any
          (fun rr => decide (e.1 ∈ rr.2.peer_ids)) = true :=
      List.any_eq_true.mpr ⟨(rid, room), hmemf,
        by rw [hekey]; exact decide_eq_true hq⟩
    simp [hany]
  · intro rid room hlook hstale sub hsub
    have hmemf : (rid, room) ∈ st.rooms.filter
        (fun rr => decide (60 < now - rr.2.last_activity)) :=
      List.mem_filter.mpr ⟨lookupA_mem hlook, by simpa using hstale⟩
    have hnone : lookupA rid (st.rooms.filter
        (fun rr => ! decide (60 < now - rr.2.last_activity))) = none := by
      rw [lookupA_filter_of_nodup rid _ st.rooms hnd room hlook]
      simp [hstale]
    apply List.mem_append_right
    apply List.mem_flatten.mpr
    refine ⟨_, List.mem_map.mpr ⟨rid, List.mem_map.mpr ⟨(rid, room), hmemf, rfl⟩, rfl⟩, ?_⟩
    unfold notify_lobby_room_changed
    dsimp only
    rw [hnone]
    apply List.mem_append_right
    apply List.mem_map.mpr
    exact ⟨sub, hsub, rfl⟩

/-- Witness for C9 at a concrete input: the stale room `"old"` is pruned,
its member's session removed and its `remove` delta sent to subscriber 7,
while the fresh room `"new"` is untouched. -/
theorem C9_prune_stale_witness :
    lookupA "old" (prune_stale_rooms pruneState 100).1.rooms = none ∧
    lookupA "new" (prune_stale_rooms pruneState 100).1.rooms = some roomNew ∧
    lookupA 4 (prune_stale_rooms pruneState 100).1.peers = none ∧
    Event.send (Dest.conn 7) (Payload.lobby_delta DeltaOp.remove "old" none) ∈
      (prune_stale_rooms pruneState 100).2 := by
  have h := C9_prune_stale pruneState 100 (by decide)
  refine ⟨?_, ?_, ?_, ?_⟩
  · have h1 := h.1 "old" roomOld (by decide)
    rwa [if_pos (by decide)] at h1
  · have h1 := h.1 "new" roomNew (by decide)
    rwa [if_neg (by decide)] at h1
  · exact h.2.1 "old" roomOld (by decide) (by decide) 4 (by decide)
  · exact h.2.2.1 "old" roomOld (by decide) (by decide) (7, ⟨7, ∅⟩) (by decide)

/-! ### Claim C4 -/

theorem two_le_clamp (c : Int) : 2 ≤ clamp_capacity c := by
  unfold clamp_capacity
  have h : (2 : Int) ≤ max 2 c := le_max_left _ _
  omega

theorem insertA_insertA {α β : Type} [DecidableEq α] (k : α) (v v' : β) :
    ∀ l : List (α × β), insertA k v (insertA k v' l) = insertA k v l
  | [] => by simp [insertA]
  | (a, b) :: rest => by
      by_cases h : k = a
      · simp [insertA, h]
      · simp [insertA, h, insertA_insertA k v v' rest]

theorem insertA_lookup_self {α β : Type} [DecidableEq α] (k : α) (v : β) :
    ∀ l : List (α × β), lookupA k l = some v → insertA k v l = l
  | [], h => by simp [lookupA] at h
  | (a, b) :: rest, h => by
      by_cases he : k = a
      · subst he
        simp [lookupA] at h
        simp [insertA, h]
      · simp only [lookupA, if_neg he] at h
        simp [insertA, he, insertA_lookup_self k v rest h]

theorem join_accept_spec (st1 : RegistryState) (now : Nat) (msg : JoinMsg)
    (peer_id : Nat) (room : Room) :
    ((room.is_sealed = true ∨ room.is_full = true) →
      join_accept st1 now msg peer_id room =
        (st1, [Event.acquire,
               Event.send Dest.requester (Payload.error "room_unavailable"),
               Event.release], none)) ∧
    (room.is_sealed = false → room.is_full = false →
      msg.is_host_intent = true → room.host_id ≠ peer_id →
      join_accept st1 now msg peer_id room =
        (st1, [Event.acquire,
               Event.send Dest.requester (Payload.error "host_already_exists"),
               Event.release], none)) ∧
    (room.is_sealed = false → room.is_full = false →
      (msg.is_host_intent = true → room.host_id = peer_id) →
      (join_accept st1 now msg peer_id room).2.2 = some peer_id ∧
      ∃ room',
        lookupA msg.room_id (join_accept st1 now msg peer_id room).1.rooms =
          some room' ∧
        peer_id ∈ room'.peer_ids ∧ room'.last_activity = now ∧
        room'.is_sealed = room'.is_full ∧ room'.capacity = room.capacity ∧
        room'.peer_ids = insert peer_id room.peer_ids ∧
        room'.connected_ack = room.connected_ack ∧
        room'.host_id = room.host_id ∧
        (join_accept st1 now msg peer_id room).1.rooms =
          insertA msg.room_id room' st1.rooms) := by
  refine ⟨?_, ?_, ?_⟩
  · intro h
    unfold join_accept
    have hcond : (room.is_sealed || room.is_full) = true := by
      rcases h with h | h <;> simp [h]
    rw [if_pos hcond]
  · intro hse hfu hint hne
    unfold join_accept
    have hcond : ¬ ((room.is_sealed || room.is_full) = true) := by simp [hse, hfu]
    rw [if_neg hcond]
    rw [if_pos ?hc]
    case hc => exact ⟨by simp [hint], hne⟩
  · intro hse hfu hhost
    unfold join_accept
    have hcond : ¬ ((room.is_sealed || room.is_full) = true) := by simp [hse, hfu]
    rw [if_neg hcond]
    rw [if_neg ?hc2]
    case hc2 =>
      rintro ⟨hint, hne⟩
      exact hne (hhost (by simpa using hint))
    dsimp only
    constructor
    · split_ifs <;> rfl
    · by_cases hfull : 0 < room.capacity ∧
          room.capacity ≤ (insert peer_id room.peer_ids).card
      · have hAfull : ({ room with peer_ids := insert peer_id room.peer_ids
                                   last_activity := now } : Room).is_full = true := by
          simp only [Room.is_full, Bool.and_eq_true, decide_eq_true_eq]
          exact hfull
        have hBfull : ({ room with is_sealed := true
                                   peer_ids := insert peer_id room.peer_ids
                                   last_activity := now } : Room).is_full = true := by
          simp only [Room.is_full, Bool.and_eq_true, decide_eq_true_eq]
          exact hfull
        simp only [if_pos hAfull]
        simp only [if_pos hBfull]
        unfold maybe_emit_match_ready
        rw [lookupA_insertA_self]
        dsimp only
        split_ifs with hack
        · refine ⟨_, lookupA_insertA_self _ _ _,
            Finset.mem_insert_self _ _, rfl, ?_, rfl, rfl, rfl, rfl, ?_⟩
          · exact hBfull.symm
          · exact insertA_insertA _ _ _ _
        · refine ⟨_, lookupA_insertA_self _ _ _,
            Finset.mem_insert_self _ _, rfl, ?_, rfl, rfl, rfl, rfl, rfl⟩
          exact hBfull.symm
      · have hAcond : ¬ (({ room with peer_ids := insert peer_id room.peer_ids
                                      last_activity := now } : Room).is_full = true) := by
          intro h
          exact hfull (by simpa [Room.is_full] using h)
        simp only [if_neg hAcond]
        refine ⟨_, lookupA_insertA_self _ _ _,
          Finset.mem_insert_self _ _, rfl, ?_, rfl, rfl, rfl, rfl, rfl⟩
        rw [hse]
        have hAfalse : ({ room with peer_ids := insert peer_id room.peer_ids
                                    last_activity := now } : Room).is_full = false :=
          Bool.eq_false_iff.mpr hAcond
        exact hAfalse.symm

/-- C4: join validation follows the spec's order and outcomes — empty room
id → `room_id_required`; existing room with different topology →
`topology_mismatch`; sealed or full → `room_unavailable`; host intent by a
requester who is not the existing host → `host_already_exists`; missing room
without host intent → `room_not_found`; otherwise the peer is added to the
room, the room's activity is refreshed to `now`, the room is sealed exactly
when now full, and a newly created room's capacity is the requested one
clamped to a floor of 2. -/
theorem C4_join_validation (st : RegistryState) (now : Nat) (msg : JoinMsg) :
    join_outcome (handle_join st now msg) = join_spec_outcome st msg ∧
    (∀ p, (handle_join st now msg).2.2 = some p →
      ∃ room',
        lookupA msg.room_id (handle_join st now msg).1.rooms = some room' ∧
        p ∈ room'.peer_ids ∧ room'.last_activity = now ∧
        room'.is_sealed = room'.is_full ∧
        (lookupA msg.room_id st.rooms = none →
          room'.capacity = clamp_capacity msg.capacity ∧ 2 ≤ room'.capacity)) := by
  unfold handle_join join_spec_outcome
  by_cases hrid : msg.room_id = ""
  · rw [if_pos hrid, if_pos hrid]
    exact ⟨rfl, fun p hp => by cases hp⟩
  · rw [if_neg hrid, if_neg hrid]
    dsimp only
    cases hlook : lookupA msg.room_id st.rooms with
    | none =>
        dsimp only
        cases hint : msg.is_host_intent with
        | false =>
            rw [if_neg (by decide : ¬ ((false : Bool) = true)), if_pos rfl]
            exact ⟨rfl, fun p hp => by cases hp⟩
        | true =>
            rw [if_pos rfl, if_neg (by decide : ¬ ((true : Bool) = false))]
            have hse : ({ room_id := msg.room_id, host_id := st.next_peer_id
                          topology := msg.topology
                          capacity := clamp_capacity msg.capacity
                          is_sealed := false, peer_ids := ∅, connected_ack := ∅
                          tags := msg.tags, last_activity := now } : Room).is_sealed =
                false := rfl
            have hfu : ({ room_id := msg.room_id, host_id := st.next_peer_id
                          topology := msg.topology
                          capacity := clamp_capacity msg.capacity
                          is_sealed := false, peer_ids := ∅, connected_ack := ∅
                          tags := msg.tags, last_activity := now } : Room).is_full =
                false := by
              have h2 := two_le_clamp msg.capacity
              simp only [Room.is_full]
              simp only [Finset.card_empty]
              have : ¬ clamp_capacity msg.capacity ≤ 0 := by omega
              simp [this]
            have h3 := (join_accept_spec
                { rooms := insertA msg.room_id
                    { room_id := msg.room_id, host_id := st.next_peer_id
                      topology := msg.topology
                      capacity := clamp_capacity msg.capacity
                      is_sealed := false, peer_ids := ∅, connected_ack := ∅
                      tags := msg.tags, last_activity := now } st.rooms
                  peers := st.peers
                  lobby_subscriptions := st.lobby_subscriptions
                  next_peer_id := st.next_peer_id + 1 }
                now msg st.next_peer_id
                { room_id := msg.room_id, host_id := st.next_peer_id
                  topology := msg.topology
                  capacity := clamp_capacity msg.capacity
                  is_sealed := false, peer_ids := ∅, connected_ack := ∅
                  tags := msg.tags, last_activity := now }).2.2 hse hfu
                (fun _ => rfl)
            refine ⟨?_, ?_⟩
            · unfold join_outcome
              rw [h3.1]
            · intro p hp
              rw [h3.1] at hp
              injection hp with hp'
              subst hp'
              obtain ⟨room', hlk, hmem, hla, hsl, hcap, _, _, _, _⟩ := h3.2
              exact ⟨room', hlk, hmem, hla, hsl,
                fun _ => ⟨hcap, hcap ▸ two_le_clamp msg.capacity⟩⟩
    | some room =>
        dsimp only
        by_cases htopo : msg.topology ≠ room.topology
        · rw [if_pos htopo, if_pos htopo]
          exact ⟨rfl, fun p hp => by cases hp⟩
        · rw [if_neg htopo, if_neg htopo]
          by_cases hsf : room.is_sealed = true ∨ room.is_full = true
          · rw [(join_accept_spec _ now msg _ room).1 hsf, if_pos hsf]
            exact ⟨rfl, fun p hp => by cases hp⟩
          · have hse : room.is_sealed = false := by
              rcases Bool.eq_false_or_eq_true room.is_sealed with h | h
              · exact absurd (Or.inl h) hsf
              · exact h
            have hfu : room.is_full = false := by
              rcases Bool.eq_false_or_eq_true room.is_full with h | h
              · exact absurd (Or.inr h) hsf
              · exact h
            rw [if_neg hsf]
            by_cases hhi : msg.is_host_intent = true ∧
                room.host_id ≠ st.next_peer_id
            · rw [(join_accept_spec _ now msg _ room).2.1 hse hfu hhi.1 hhi.2,
                if_pos hhi]
              exact ⟨rfl, fun p hp => by cases hp⟩
            · rw [if_neg hhi]
              have hhost : msg.is_host_intent = true →
                  room.host_id = st.next_peer_id := by
                intro hi
                by_contra hne
                exact hhi ⟨hi, hne⟩
              have h3 := (join_accept_spec
                  { rooms := st.rooms, peers := st.peers
                    lobby_subscriptions := st.lobby_subscriptions
                    next_peer_id := st.next_peer_id + 1 }
                  now msg st.next_peer_id room).2.2 hse hfu hhost
              refine ⟨?_, ?_⟩
              · unfold join_outcome
                rw [h3.1]
              · intro p hp
                rw [h3.1] at hp
                injection hp with hp'
                subst hp'
                obtain ⟨room', hlk, hmem, hla, hsl, _, _, _, _, _⟩ := h3.2
                exact ⟨room', hlk, hmem, hla, hsl,
                  fun hnone => by cases hnone⟩

/-- Witness for C4 at a concrete input: creating room `"w"` from the empty
registry is accepted with peer id 1. -/
theorem C4_join_validation_witness :
    join_outcome (handle_join emptyState 10 (joinMesh "w" true)) =
      JoinOutcome.accepted 1 := by
  have h := (C4_join_validation emptyState 10 (joinMesh "w" true)).1
  rw [h]
  decide

/-! ### Claim C1 (corrected) -/

theorem roomInv_touch (room : Room) (now : Nat) (h : RoomInv room) :
    RoomInv { room with last_activity := now } := h

theorem roomInv_ack (room : Room) (p now : Nat) (h : RoomInv room)
    (hp : p ∈ room.peer_ids) :
    RoomInv { room with connected_ack := insert p room.connected_ack
                        last_activity := now } := by
  obtain ⟨hack, hhost, hcard, hseal⟩ := h
  exact ⟨Finset.insert_subset hp hack, hhost, hcard, hseal⟩

theorem roomInv_disconnect (room : Room) (p now : Nat) (h : RoomInv room)
    (hp : p ∈ room.peer_ids) (hnh : p ≠ room.host_id) :
    RoomInv { room with is_sealed := false
                        peer_ids := room.peer_ids.erase p
                        connected_ack := room.connected_ack.erase p
                        last_activity := now } := by
  obtain ⟨hack, hhost, hcard, hseal⟩ := h
  have hcp : (room.peer_ids.erase p).card = room.peer_ids.card - 1 :=
    Finset.card_erase_of_mem hp
  have hpos : 0 < room.peer_ids.card := Finset.card_pos.mpr ⟨p, hp⟩
  unfold RoomInv
  dsimp only
  refine ⟨Finset.erase_subset_erase _ hack, ?_, ?_, ?_⟩
  · exact Finset.mem_erase.mpr ⟨Ne.symm hnh, hhost⟩
  · rw [hcp]; omega
  · constructor
    · intro hx; cases hx
    · intro hc
      rw [hcp] at hc
      omega

theorem roomsInv_maybe_emit (st : RegistryState) (now : Nat) (rid : String)
    (h : RoomsInv st) : RoomsInv (maybe_emit_match_ready st now rid).1 := by
  unfold maybe_emit_match_ready
  cases hl : lookupA rid st.rooms with
  | none => exact h
  | some room =>
      dsimp only
      split_ifs with hc
      · intro e he
        rcases mem_insertA he with h1 | h1
        · rw [h1]
          exact roomInv_touch room now (h _ (lookupA_mem hl))
        · exact h e h1
      · exact h

/-- C1 as stated is false: starting from the empty registry, the trace
join(1 hosts "r") · join(2) · disconnect(1) · join(3 recreates "r") ·
peer_connected(2) ends with the recreated room holding `connected_ack =
{2}` while `peer_ids = {3}`, violating `connected_ack ⊆ peer_ids` after a
complete operation. -/
theorem C1_invariant_counterexample : ¬ RoomsInv ghostStep5.1 := by decide

/-- C1 amended: the room invariants (`connected_ack ⊆ peer_ids`, `host_id ∈
peer_ids`, `|peer_ids| ≤ capacity`, `is_sealed ⇔ |peer_ids| = capacity`)
are preserved by every complete operation — join, peer_connected
acknowledgment, signal, disconnect and prune — provided that before the
operation every room satisfied them and every peer session whose `room_id`
resolves to an existing room was a member of that room.  (The latter
proviso can fail on reachable states when a room id is reused after a host
departure, which is what the counterexample exploits.) -/
theorem C1_invariants_preserved (st : RegistryState) (now : Nat)
    (hInv : RoomsInv st) (hCoh : Coherent st) :
    (∀ msg, RoomsInv (handle_join st now msg).1) ∧
    (∀ p, RoomsInv (handle_peer_connected st now p).1) ∧
    (∀ p m, RoomsInv (handle_signal st now p m).1) ∧
    (∀ p, RoomsInv (handle_disconnect st now p).1) ∧
    RoomsInv (prune_stale_rooms st now).1 := by
  refine ⟨?_, ?_, ?_, ?_, ?_⟩
  · intro msg
    unfold handle_join
    by_cases hrid : msg.room_id = ""
    · rw [if_pos hrid]; exact hInv
    · rw [if_neg hrid]
      dsimp only
      cases hlook : lookupA msg.room_id st.rooms with
      | none =>
          dsimp only
          cases hint : msg.is_host_intent with
          | false =>
              rw [if_neg (by decide : ¬ ((false : Bool) = true))]
              exact hInv
          | true =>
              rw [if_pos rfl]
              have hse : ({ room_id := msg.room_id, host_id := st.next_peer_id
                            topology := msg.topology
                            capacity := clamp_capacity msg.capacity
                            is_sealed := false, peer_ids := ∅, connected_ack := ∅
                            tags := msg.tags, last_activity := now } : Room).is_sealed =
                  false := rfl
              have hfu : ({ room_id := msg.room_id, host_id := st.next_peer_id
                            topology := msg.topology
                            capacity := clamp_capacity msg.capacity
                            is_sealed := false, peer_ids := ∅, connected_ack := ∅
                            tags := msg.tags, last_activity := now } : Room).is_full =
                  false := by
                have h2 := two_le_clamp msg.capacity
                simp only [Room.is_full]
                simp only [Finset.card_empty]
                have hn : ¬ clamp_capacity msg.capacity ≤ 0 := by omega
                simp [hn]
              have h3 := (join_accept_spec
                  { rooms := insertA msg.room_id
                      { room_id := msg.room_id, host_id := st.next_peer_id
                        topology := msg.topology
                        capacity := clamp_capacity msg.capacity
                        is_sealed := false, peer_ids := ∅, connected_ack := ∅
                        tags := msg.tags, last_activity := now } st.rooms
                    peers := st.peers
                    lobby_subscriptions := st.lobby_subscriptions
                    next_peer_id := st.next_peer_id + 1 }
                  now msg st.next_peer_id
                  { room_id := msg.room_id, host_id := st.next_peer_id
                    topology := msg.topology
                    capacity := clamp_capacity msg.capacity
                    is_sealed := false, peer_ids := ∅, connected_ack := ∅
                    tags := msg.tags, last_activity := now }).2.2 hse hfu
                  (fun _ => rfl)
              obtain ⟨room', _, hmem, _, hsl, hcap, hpi, hakk, hhostid, hrooms⟩ :=
                h3.2
              dsimp only at hcap hpi hakk hhostid
              have h1c : room'.peer_ids.card = 1 := by rw [hpi]; simp
              have h2c := two_le_clamp msg.capacity
              intro e he
              rw [hrooms] at he
              dsimp only at he
              rw [insertA_insertA] at he
              rcases mem_insertA he with h1 | h1
              · rw [h1]
                unfold RoomInv
                dsimp only
                refine ⟨?_, ?_, ?_, ?_⟩
                · rw [hakk]
                  exact Finset.empty_subset _
                · rw [hhostid, hpi]
                  exact Finset.mem_insert_self _ _
                · omega
                · rw [hsl]
                  constructor
                  · intro hx
                    have hfx : 0 < room'.capacity ∧
                        room'.capacity ≤ room'.peer_ids.card := by
                      simpa [Room.is_full] using hx
                    omega
                  · intro hc
                    exfalso
                    omega
              · exact hInv e h1
      | some room =>
          dsimp only
          by_cases htopo : msg.topology ≠ room.topology
          · rw [if_pos htopo]
            exact hInv
          · rw [if_neg htopo]
            by_cases hsf : room.is_sealed = true ∨ room.is_full = true
            · rw [(join_accept_spec _ now msg _ room).1 hsf]
              exact hInv
            · have hse : room.is_sealed = false := by
                rcases Bool.eq_false_or_eq_true room.is_sealed with h | h
                · exact absurd (Or.inl h) hsf
                · exact h
              have hfu : room.is_full = false := by
                rcases Bool.eq_false_or_eq_true room.is_full with h | h
                · exact absurd (Or.inr h) hsf
                · exact h
              have hInvr : RoomInv room := hInv _ (lookupA_mem hlook)
              obtain ⟨hack, hhost, hcard, hseal⟩ := hInvr
              have hlt : room.peer_ids.card < room.capacity := by
                have hne : room.peer_ids.card ≠ room.capacity := fun hc => by
                  rw [hseal.mpr hc] at hse; cases hse
                omega
              by_cases hhi : msg.is_host_intent = true ∧
                  room.host_id ≠ st.next_peer_id
              · rw [(join_accept_spec _ now msg _ room).2.1 hse hfu hhi.1 hhi.2]
                exact hInv
              · have hhost2 : msg.is_host_intent = true →
                    room.host_id = st.next_peer_id := by
                  intro hi
                  by_contra hne
                  exact hhi ⟨hi, hne⟩
                have h3 := (join_accept_spec
                    { rooms := st.rooms, peers := st.peers
                      lobby_subscriptions := st.lobby_subscriptions
                      next_peer_id := st.next_peer_id + 1 }
                    now msg st.next_peer_id room).2.2 hse hfu hhost2
                obtain ⟨room', _, hmem, _, hsl, hcap, hpi, hakk, hhostid, hrooms⟩ :=
                  h3.2
                intro e he
                rw [hrooms] at he
                dsimp only at he
                rcases mem_insertA he with h1 | h1
                · rw [h1]
                  unfold RoomInv
                  dsimp only
                  have hcard' : room'.peer_ids.card ≤ room'.capacity := by
                    rw [hpi, hcap]
                    have := Finset.card_insert_le st.next_peer_id room.peer_ids
                    omega
                  refine ⟨?_, ?_, hcard', ?_⟩
                  · rw [hakk, hpi]
                    exact hack.trans (Finset.subset_insert _ _)
                  · rw [hhostid, hpi]
                    exact Finset.mem_insert_of_mem hhost
                  · rw [hsl]
                    constructor
                    · intro hx
                      have hfx : 0 < room'.capacity ∧
                          room'.capacity ≤ room'.peer_ids.card := by
                        simpa [Room.is_full] using hx
                      omega
                    · intro hc
                      have hposx : 0 < room'.capacity := by
                        rw [hcap]; omega
                      simp only [Room.is_full]
                      rw [hc]
                      simp [hposx]
                · exact hInv e h1
  · intro p
    unfold handle_peer_connected
    cases hs : lookupA p st.peers with
    | none => exact hInv
    | some session =>
        dsimp only
        cases hr : lookupA session.room_id st.rooms with
        | none => exact hInv
        | some room =>
            dsimp only
            apply roomsInv_maybe_emit
            intro e he
            rcases mem_insertA he with h1 | h1
            · rw [h1]
              exact roomInv_ack room p now (hInv _ (lookupA_mem hr))
                (hCoh (p, session) (lookupA_mem hs) room hr)
            · exact hInv e h1
  · intro p m
    unfold handle_signal
    by_cases h0 : m.target_id = 0
    · rw [if_pos h0]
      cases hs : lookupA p st.peers <;> exact hInv
    · rw [if_neg h0]
      cases hs : lookupA p st.peers with
      | none =>
          cases ht : lookupA m.target_id st.peers <;> exact hInv
      | some s =>
          cases ht : lookupA m.target_id st.peers with
          | none => exact hInv
          | some t =>
              dsimp only
              split_ifs with hdiff
              · exact hInv
              · cases hrm : lookupA s.room_id st.rooms with
                | none => exact hInv
                | some room =>
                    dsimp only
                    intro e he
                    rcases mem_insertA he with h1 | h1
                    · rw [h1]
                      exact roomInv_touch room now (hInv _ (lookupA_mem hrm))
                    · exact hInv e h1
  · intro p
    unfold handle_disconnect
    cases hs : lookupA p st.peers with
    | none => exact hInv
    | some session =>
        dsimp only
        cases hr : lookupA session.room_id st.rooms with
        | none => exact hInv
        | some room =>
            dsimp only
            by_cases hcond : (decide (p = room.host_id) ||
                decide ((room.peer_ids.erase p).card = 0)) = true
            · rw [if_pos hcond]
              intro e he
              exact hInv e (mem_eraseA he)
            · rw [if_neg hcond]
              have hnot : ¬ p = room.host_id ∧ ¬ room.peer_ids.erase p = ∅ := by
                simp only [Bool.or_eq_true, decide_eq_true_eq,
                  Finset.card_eq_zero] at hcond
                exact not_or.mp hcond
              intro e he
              rcases mem_insertA he with h1 | h1
              · rw [h1]
                exact roomInv_disconnect room p now (hInv _ (lookupA_mem hr))
                  (hCoh (p, session) (lookupA_mem hs) room hr) hnot.1
              · exact hInv e h1
  · unfold prune_stale_rooms
    dsimp only
    intro e he
    exact hInv e (List.mem_filter.mp he).1

/-- Witness for C1 at a concrete input: from the (invariant-satisfying,
coherent) two-peer registry, a disconnect of peer 2 preserves the room
invariants. -/
theorem C1_invariants_preserved_witness :
    RoomsInv (handle_disconnect twoPeerState 55 2).1 :=
  (C1_invariants_preserved twoPeerState 55 (by decide) (by decide)).2.2.2.1 2

/-! ### Claim C8 (corrected) -/

theorem sends_inside_lock_append (a b : List Event) (d : Nat) :
    sends_inside_lock (a ++ b) d =
      sends_inside_lock a d ++ sends_inside_lock b (lock_depth_after a d) := by
  induction a generalizing d with
  | nil => rfl
  | cons e rest ih =>
      cases e with
      | acquire => simp [sends_inside_lock, lock_depth_after, ih]
      | release => simp [sends_inside_lock, lock_depth_after, ih]
      | send dst p =>
          simp [sends_inside_lock, lock_depth_after, ih, List.append_assoc]

theorem depth_after_append (a b : List Event) (d : Nat) :
    lock_depth_after (a ++ b) d = lock_depth_after b (lock_depth_after a d) := by
  induction a generalizing d with
  | nil => rfl
  | cons e rest ih => cases e <;> simp [lock_depth_after, ih]

theorem sends_inside_lock_of_sends (L : List Event)
    (h : ∀ e ∈ L, is_send_event e = true) :
    sends_inside_lock L 0 = [] ∧ lock_depth_after L 0 = 0 := by
  induction L with
  | nil => exact ⟨rfl, rfl⟩
  | cons e rest ih =>
      have he := h e (List.mem_cons_self _ _)
      have hrest := ih (fun x hx => h x (List.mem_cons_of_mem _ hx))
      cases e with
      | acquire => simp [is_send_event] at he
      | release => simp [is_send_event] at he
      | send dst p =>
          simp [sends_inside_lock, lock_depth_after, hrest.1, hrest.2]

theorem sil_notify_eq (st : RegistryState) (rid : String) :
    sends_inside_lock (notify_lobby_room_changed st rid) 0 = [] := by
  unfold notify_lobby_room_changed
  dsimp only
  rw [sends_inside_lock_append]
  have h := sends_inside_lock_of_sends
    (st.lobby_subscriptions.map (fun sub =>
      Event.send (Dest.conn sub.2.connection_id)
        (lobby_delta_payload (lookupA rid st.rooms) rid sub.2.filter_tags)))
    (by
      intro e he
      rcases List.mem_map.mp he with ⟨sub, _, heq⟩
      rw [← heq]
      rfl)
  simpa [sends_inside_lock, lock_depth_after] using h.1

theorem depth_notify_eq (st : RegistryState) (rid : String) :
    lock_depth_after (notify_lobby_room_changed st rid) 0 = 0 := by
  unfold notify_lobby_room_changed
  dsimp only
  rw [depth_after_append]
  have h := sends_inside_lock_of_sends
    (st.lobby_subscriptions.map (fun sub =>
      Event.send (Dest.conn sub.2.connection_id)
        (lobby_delta_payload (lookupA rid st.rooms) rid sub.2.filter_tags)))
    (by
      intro e he
      rcases List.mem_map.mp he with ⟨sub, _, heq⟩
      rw [← heq]
      rfl)
  simpa [lock_depth_after] using h.2

theorem broadcast_all_sends (st : RegistryState) (room : Room)
    (payload : Payload) (ex : Option Nat) :
    ∀ e ∈ broadcast_room st room payload ex, is_send_event e = true := by
  intro e he
  rcases List.mem_filterMap.mp he with ⟨pid, _, hf⟩
  by_cases hex : ex = some pid
  · rw [if_pos hex] at hf; cases hf
  · rw [if_neg hex] at hf
    cases hl : lookupA pid st.peers with
    | none => rw [hl] at hf; cases hf
    | some w =>
        rw [hl] at hf
        injection hf with hh
        rw [← hh]
        rfl

theorem sil_broadcast_eq (st : RegistryState) (room : Room) (payload : Payload)
    (ex : Option Nat) :
    sends_inside_lock (broadcast_room st room payload ex) 0 = [] :=
  (sends_inside_lock_of_sends _ (broadcast_all_sends st room payload ex)).1

theorem depth_broadcast_eq (st : RegistryState) (room : Room) (payload : Payload)
    (ex : Option Nat) :
    lock_depth_after (broadcast_room st room payload ex) 0 = 0 :=
  (sends_inside_lock_of_sends _ (broadcast_all_sends st room payload ex)).2

theorem peer_joined_all_sends (peers : List (Nat × PeerSession)) (ids : List Nat)
    (p : Nat) :
    ∀ e ∈ peer_joined_events peers ids p, is_send_event e = true := by
  intro e he
  rcases List.mem_filterMap.mp he with ⟨pid, _, hf⟩
  cases hl : lookupA pid peers with
  | none => rw [hl] at hf; cases hf
  | some w =>
      rw [hl] at hf
      injection hf with hh
      rw [← hh]
      rfl

theorem sil_peer_joined_eq (peers : List (Nat × PeerSession)) (ids : List Nat)
    (p : Nat) :
    sends_inside_lock (peer_joined_events peers ids p) 0 = [] :=
  (sends_inside_lock_of_sends _ (peer_joined_all_sends peers ids p)).1

theorem depth_peer_joined_eq (peers : List (Nat × PeerSession)) (ids : List Nat)
    (p : Nat) :
    lock_depth_after (peer_joined_events peers ids p) 0 = 0 :=
  (sends_inside_lock_of_sends _ (peer_joined_all_sends peers ids p)).2

theorem sil_map_send {α : Type} (l : List α) (d : α → Dest) (pl : α → Payload) :
    sends_inside_lock (l.map (fun x => Event.send (d x) (pl x))) 0 = [] := by
  refine (sends_inside_lock_of_sends _ ?_).1
  intro e he
  rcases List.mem_map.mp he with ⟨x, _, heq⟩
  rw [← heq]; rfl

theorem depth_map_send {α : Type} (l : List α) (d : α → Dest) (pl : α → Payload) :
    lock_depth_after (l.map (fun x => Event.send (d x) (pl x))) 0 = 0 := by
  refine (sends_inside_lock_of_sends _ ?_).2
  intro e he
  rcases List.mem_map.mp he with ⟨x, _, heq⟩
  rw [← heq]; rfl

theorem sil_maybe_emit_eq (st : RegistryState) (now : Nat) (rid : String) :
    sends_inside_lock (maybe_emit_match_ready st now rid).2 0 = [] := by
  unfold maybe_emit_match_ready
  cases hl : lookupA rid st.rooms with
  | none => rfl
  | some room =>
      dsimp only
      split_ifs with hc
      · dsimp only
        rw [sends_inside_lock_append]
        simp [sends_inside_lock, lock_depth_after, sil_broadcast_eq]
      · rfl

theorem depth_maybe_emit_eq (st : RegistryState) (now : Nat) (rid : String) :
    lock_depth_after (maybe_emit_match_ready st now rid).2 0 = 0 := by
  unfold maybe_emit_match_ready
  cases hl : lookupA rid st.rooms with
  | none => rfl
  | some room =>
      dsimp only
      split_ifs with hc
      · dsimp only
        rw [depth_after_append]
        simp [lock_depth_after, depth_broadcast_eq]
      · rfl

theorem sil_notify_flatten {α : Type} (st1 : RegistryState) (g : α → String)
    (ids : List α) :
    sends_inside_lock
      ((ids.map (fun x => notify_lobby_room_changed st1 (g x))).flatten) 0 = [] := by
  induction ids with
  | nil => rfl
  | cons a rest ih =>
      simp only [List.map_cons, List.flatten_cons]
      rw [sends_inside_lock_append]
      simp [sil_notify_eq, depth_notify_eq, ih]

theorem sil_join_accept (st1 : RegistryState) (now : Nat) (msg : JoinMsg)
    (p : Nat) (room : Room) :
    ∀ dp ∈ sends_inside_lock (join_accept st1 now msg p room).2.1 0,
      ∃ m, dp.2 = Payload.error m := by
  unfold join_accept
  split_ifs with h1 h2
  · intro dp hdp
    simp [sends_inside_lock, lock_depth_after] at hdp
    exact ⟨"room_unavailable", by rw [hdp]⟩
  · intro dp hdp
    simp [sends_inside_lock, lock_depth_after] at hdp
    exact ⟨"host_already_exists", by rw [hdp]⟩
  · intro dp hdp
    dsimp only at hdp
    split_ifs at hdp <;>
      simp [sends_inside_lock_append, depth_after_append, sends_inside_lock,
        lock_depth_after, sil_notify_eq, depth_notify_eq, sil_peer_joined_eq,
        depth_peer_joined_eq, sil_maybe_emit_eq, sil_map_send, depth_map_send,
        notify_lobby_room_changed] at hdp

/-- C8 as stated is false: a join request for a missing room without host
intent sends the `room_not_found` error reply while the registry lock is
still held. -/
theorem C8_error_inside_lock_counterexample :
    sends_inside_lock (handle_join emptyState 40 (joinMesh "x" false)).2.1 0 =
      [(Dest.requester, Payload.error "room_not_found")] := by decide

/-- C8 amended: the registry lock is acquired and released in a balanced way
around each handler's critical section, and the only sends issued while the
lock is held are error replies (the four join-validation errors and the
cross-room signal rejection); every non-error send — id_assigned,
peer_joined, match_ready, signal relay, room_closed, peer_left and all lobby
deltas and snapshots — happens outside the critical section. -/
theorem C8_lock_send_discipline (st : RegistryState)
    (now peer_id from_peer_id : Nat) (jmsg : JoinMsg) (smsg : SignalMsg) :
    (∀ dp ∈ sends_inside_lock (handle_join st now jmsg).2.1 0,
      ∃ m, dp.2 = Payload.error m) ∧
    (∀ dp ∈ sends_inside_lock (handle_signal st now from_peer_id smsg).2 0,
      ∃ m, dp.2 = Payload.error m) ∧
    sends_inside_lock (handle_peer_connected st now peer_id).2 0 = [] ∧
    sends_inside_lock (handle_disconnect st now peer_id).2 0 = [] ∧
    sends_inside_lock (prune_stale_rooms st now).2 0 = [] := by
  refine ⟨?_, ?_, ?_, ?_, ?_⟩
  · unfold handle_join
    by_cases hrid : jmsg.room_id = ""
    · rw [if_pos hrid]
      intro dp hdp
      simp [sends_inside_lock] at hdp
    · rw [if_neg hrid]
      dsimp only
      cases hlook : lookupA jmsg.room_id st.rooms with
      | none =>
          dsimp only
          cases hint : jmsg.is_host_intent with
          | false =>
              rw [if_neg (by decide : ¬ ((false : Bool) = true))]
              intro dp hdp
              simp [sends_inside_lock, lock_depth_after] at hdp
              exact ⟨"room_not_found", by rw [hdp]⟩
          | true =>
              rw [if_pos rfl]
              exact sil_join_accept _ now jmsg _ _
      | some room =>
          dsimp only
          by_cases htopo : jmsg.topology ≠ room.topology
          · rw [if_pos htopo]
            intro dp hdp
            simp [sends_inside_lock, lock_depth_after] at hdp
            exact ⟨"topology_mismatch", by rw [hdp]⟩
          · rw [if_neg htopo]
            exact sil_join_accept _ now jmsg _ _
  · unfold handle_signal
    by_cases h0 : smsg.target_id = 0
    · rw [if_pos h0]
      cases hs : lookupA from_peer_id st.peers with
      | none => intro dp hdp; simp [sends_inside_lock] at hdp
      | some s =>
          intro dp hdp
          simp [sends_inside_lock] at hdp
    · rw [if_neg h0]
      cases hs : lookupA from_peer_id st.peers with
      | none =>
          cases ht : lookupA smsg.target_id st.peers <;>
            exact fun dp hdp => by simp [sends_inside_lock, lock_depth_after] at hdp
      | some s =>
          cases ht : lookupA smsg.target_id st.peers with
          | none =>
              exact fun dp hdp => by
                simp [sends_inside_lock, lock_depth_after] at hdp
          | some t =>
              dsimp only
              split_ifs with hdiff
              · intro dp hdp
                simp [sends_inside_lock, lock_depth_after] at hdp
                exact ⟨"cross_room_signal_blocked", by rw [hdp]⟩
              · cases hrm : lookupA s.room_id st.rooms with
                | none =>
                    exact fun dp hdp => by
                      simp [sends_inside_lock, lock_depth_after] at hdp
                | some room =>
                    dsimp only
                    intro dp hdp
                    simp [sends_inside_lock, lock_depth_after] at hdp
  · unfold handle_peer_connected
    cases hs : lookupA peer_id st.peers with
    | none => rfl
    | some session =>
        dsimp only
        cases hr : lookupA session.room_id st.rooms with
        | none => rfl
        | some room =>
            dsimp only
            rw [sends_inside_lock_append]
            simp [sends_inside_lock, lock_depth_after, sil_maybe_emit_eq]
  · unfold handle_disconnect
    cases hs : lookupA peer_id st.peers with
    | none => rfl
    | some session =>
        dsimp only
        cases hr : lookupA session.room_id st.rooms with
        | none => rfl
        | some room =>
            dsimp only
            split_ifs with hcond hhostb <;>
              · rw [sends_inside_lock_append, sends_inside_lock_append]
                simp [sends_inside_lock, lock_depth_after, sil_broadcast_eq,
                  depth_broadcast_eq, sil_notify_eq, depth_notify_eq,
                  depth_after_append, sil_map_send, depth_map_send,
                  notify_lobby_room_changed]
  · unfold prune_stale_rooms
    dsimp only
    rw [sends_inside_lock_append]
    simp only [sends_inside_lock, lock_depth_after, List.nil_append,
      Nat.add_sub_cancel]
    exact sil_notify_flatten _ (fun s => s) _

/-- Witness for C8 at a concrete input. -/
theorem C8_lock_send_discipline_witness :
    sends_inside_lock (handle_peer_connected fullAckedState 60 1).2 0 = [] :=
  (C8_lock_send_discipline fullAckedState 60 1 1 (joinMesh "z" true)
      ⟨0, none, none⟩).2.2.1

end SimpleWebRTC